import Mathlib

/-!
Verification of the Pinterest board downloader (`src/main.py`) against its
natural-language specification.

Strings of the Python source are embedded as lists of characters
(`Str := List Char`), Python `set`s as `Finset Str`, and the JSON
"database" file (`.pinterest_db.json`) as an explicit `DBFile` value that
is either missing, unparseable, or a parsed document.  The per-pin
download transaction of `download_images_from_board` is embedded as a
pure state-transition function on a `SessionState` carrying the in-memory
hash sets, the persisted database, the output-directory listing, and the
four session counters.  Line numbers refer to `src/main.py`.
-/

namespace Pinterest

/-- Python strings are embedded as lists of characters. -/
abbrev Str := List Char

/-- The parsed JSON document `{"downloaded": [...], "skipped": [...]}`
written by `save_database` (lines 47-54). -/
structure DB where
  downloaded : List Str
  skipped : List Str
deriving DecidableEq, Repr

/-- State of the on-disk `.pinterest_db.json` file: absent, present but
unparseable (including an empty file, where `json.load` raises), or a
parsed document. -/
inductive DBFile where
  | missing : DBFile
  | corrupt : DBFile
  | valid : DB → DBFile
deriving DecidableEq, Repr

/-- The two in-memory hash sets of `PinterestDownloader`
(`self.downloaded_hashes`, `self.skipped_hashes`). -/
structure Downloader where
  downloaded_hashes : Finset Str
  skipped_hashes : Finset Str
deriving DecidableEq

/-- Python `str.split(sep)` for a single-character separator `c`:
splits the list at every occurrence of `c`. -/
def splitChar (c : Char) : Str → List Str
  | [] => [[]]
  | x :: xs =>
    if x = c then [] :: splitChar c xs
    else
      match splitChar c xs with
      | [] => [[x]]
      | y :: ys => (x :: y) :: ys

/-- The file extensions accepted by the reconciliation scan
(line 39: `filename.endswith(('.jpg', '.jpeg', '.png', '.gif', '.webp'))`). -/
def imageExtensions : List Str :=
  [".jpg".data, ".jpeg".data, ".png".data, ".gif".data, ".webp".data]

/-- `filename.endswith((...image extensions...))` (line 39). -/
def isImageFile (filename : Str) : Bool :=
  imageExtensions.any (fun e => e.isSuffixOf filename)

/-- Lines 40-41: `filename.split('_')[0] if '_' in filename else
filename.split('.')[0]` — the hash inferred from a committed filename. -/
def hash_part (filename : Str) : Str :=
  if filename.contains '_' then (splitChar '_' filename).headD []
  else (splitChar '.' filename).headD []

/-- `load_database` (lines 27-45): parse the JSON store (keeping the empty
sets from `__init__` when the file is missing or unparseable), then add
the inferred hash of every image-extension filename in the output folder
to the downloaded set. -/
def load_database (dbFile : DBFile) (listing : List Str) : Downloader :=
  let init : Downloader :=
    match dbFile with
    | .valid db => ⟨db.downloaded.toFinset, db.skipped.toFinset⟩
    | _ => ⟨∅, ∅⟩
  { init with
    downloaded_hashes :=
      listing.foldl
        (fun acc filename =>
          if isImageFile filename then insert (hash_part filename) acc else acc)
        init.downloaded_hashes }

/-- `save_database` (lines 47-54): serialize both sets as JSON lists
(`list(self.downloaded_hashes)`; a Python set iterates in an arbitrary
order, embedded here as the lexicographically sorted listing). -/
def save_database (dl : Downloader) : DB :=
  ⟨dl.downloaded_hashes.sort (· ≤ ·), dl.skipped_hashes.sort (· ≤ ·)⟩

/-- A hash's recorded disposition. -/
inductive Status where
  | Downloaded : Status
  | SkippedTooSmall : Status
deriving DecidableEq, Repr

/-- The membership test the per-pin loop performs on a hash
(lines 257-264): downloaded set first, then skipped set. -/
def lookup (dl : Downloader) (h : Str) : Option Status :=
  if h ∈ dl.downloaded_hashes then some .Downloaded
  else if h ∈ dl.skipped_hashes then some .SkippedTooSmall
  else none

/-- `record(h, Downloaded)`: the in-memory mutation performed on commit
(line 337, `self.downloaded_hashes.add(img_hash)`). -/
def record_downloaded (dl : Downloader) (h : Str) : Downloader :=
  { dl with downloaded_hashes := insert h dl.downloaded_hashes }

/-- The hashes recorded as downloaded in the persisted JSON document. -/
def dbDownloaded : DBFile → Finset Str
  | .valid db => db.downloaded.toFinset
  | _ => ∅

/-- The hashes recorded as skipped in the persisted JSON document. -/
def dbSkipped : DBFile → Finset Str
  | .valid db => db.skipped.toFinset
  | _ => ∅

/-- The state threaded through the per-pin loop of
`download_images_from_board`: the in-memory sets, the persisted database
file, the output-directory listing, the four counters (lines 212-215),
and whether the page currently shows the board
(`board_page_url in page.url`, line 222). -/
structure SessionState where
  dl : Downloader
  disk : DBFile
  dir : List Str
  downloaded : Nat
  skipped : Nat
  skipped_small : Nat
  failed : Nat
  onBoard : Bool
deriving DecidableEq

/-- One locator strategy from an ordered selector list (lines 267-272 and
291-296): whether `page.locator(selector).first` evaluates without
raising, and whether `is_visible` then reports the element visible. -/
structure Strategy where
  constructs : Bool
  visible : Bool
deriving DecidableEq, Repr

/-- The first-match scan over a selector list (lines 274-280, 298-305).
The scanned variable starts as `None`; each iteration that constructs a
locator overwrites it (even when the element is not visible), and the
loop breaks on the first visible element.  The result abstracts the
variable's final condition: `none` when it is still `None`, `some true`
when the loop broke on a visible element, `some false` when the variable
holds a locator that was never seen visible. -/
def scanLocators : List Strategy → Option Bool → Option Bool
  | [], st => st
  | strat :: rest, st =>
    if strat.constructs then
      if strat.visible then some true
      else scanLocators rest (some false)
    else scanLocators rest st

/-- `temp_path` (lines 316-317): `f"temp_{img_hash}"`. -/
def temp_name (img_hash : Str) : Str := "temp_".data ++ img_hash

/-- `new_filename` (line 332): `f"{img_hash}_{original_name}"`. -/
def final_name (img_hash original_name : Str) : Str :=
  img_hash ++ "_".data ++ original_name

/-- The primitive effects performed between the download trigger and the
end of a transaction (lines 316-338), in source order. -/
inductive TxStep where
  | saveTemp : TxStep
  | removeTemp : TxStep
  | renameTemp : TxStep
  | addSkipped : TxStep
  | addDownloaded : TxStep
  | saveDB : TxStep
deriving DecidableEq, Repr

/-- Effect of each primitive transaction step on the session state.
`saveTemp` is `download.save_as(temp_path)` (line 318); `removeTemp` is
`os.remove(temp_path)` (line 324); `renameTemp` is
`os.rename(temp_path, final_path)` (line 335); `addSkipped`/`addDownloaded`
are the set insertions (lines 325, 337); `saveDB` is `save_database()`
(lines 326, 338). -/
def applyStep (img_hash suggested : Str) (st : SessionState) : TxStep → SessionState
  | .saveTemp => { st with dir := st.dir ++ [temp_name img_hash] }
  | .removeTemp => { st with dir := st.dir.erase (temp_name img_hash) }
  | .renameTemp =>
      { st with dir := st.dir.erase (temp_name img_hash)
                        ++ [final_name img_hash suggested] }
  | .addSkipped =>
      { st with dl := { st.dl with
                        skipped_hashes := insert img_hash st.dl.skipped_hashes } }
  | .addDownloaded =>
      { st with dl := { st.dl with
                        downloaded_hashes := insert img_hash st.dl.downloaded_hashes } }
  | .saveDB => { st with disk := DBFile.valid (save_database st.dl) }

/-- The step sequence of the commit branch (lines 318-338):
write the temporary artifact, rename it to its permanent name, add the
hash to the downloaded set, re-serialize the database. -/
def commitSteps : List TxStep := [.saveTemp, .renameTemp, .addDownloaded, .saveDB]

/-- The step sequence of the discard branch (lines 318-326): write the
temporary artifact, delete it, add the hash to the skipped set,
re-serialize the database. -/
def discardSteps : List TxStep := [.saveTemp, .removeTemp, .addSkipped, .saveDB]

/-- Classification of one per-pin transaction, following the outcome
taxonomy of the specification.  `FailedUIElement` maps to the
`couldn't find ... button` branches (lines 282-285, 307-310),
`FailedTimeout` to the `PlaywrightTimeout` handler (lines 346-349),
`FailedError` to the generic exception handlers (lines 350-352, 367-370).
`FailedNavigation` appears in the specification's taxonomy; no branch of
the source produces it. -/
inductive Outcome where
  | Downloaded : Outcome
  | SkippedDuplicate : Outcome
  | SkippedTooSmall : Outcome
  | FailedUIElement : Outcome
  | FailedTimeout : Outcome
  | FailedError : Outcome
  | FailedNavigation : Outcome
deriving DecidableEq, Repr

/-- `file_size_kb = file_size / 1024` (line 321).  Python's `/` is float
division; for byte counts below 2^53 dividing by 1024 is exact in a
binary float, so the rational quotient is the faithful embedding. -/
def file_size_kb (file_size : Nat) : ℚ := (file_size : ℚ) / 1024

/-- The environment a single pin presents to its transaction: the
behaviour of every external interaction the code performs for that pin. -/
structure PinEnv where
  /-- `wait_for_selector('img[src*="pinimg"]', ...)` times out (line 251). -/
  imgTimeout : Bool
  /-- the `src` attribute of the detail image (line 254). -/
  imgSrc : Str
  /-- behaviour of the four More-options selectors (lines 267-272). -/
  moreStrategies : List Strategy
  /-- behaviour of the four download-action selectors (lines 291-296). -/
  downloadStrategies : List Strategy
  /-- byte size of the downloaded artifact (line 320). -/
  downloadSize : Nat
  /-- `download.suggested_filename` (line 331). -/
  suggestedName : Str
  /-- `os.rename` raises, e.g. an unusable suggested filename (line 335). -/
  renameFails : Bool
  /-- the top-of-iteration `page.goto(board_page_url)` succeeds (line 225). -/
  topNavSucceeds : Bool
  /-- `page.go_back` plus the pin-selector wait succeed (lines 355-358). -/
  goBackSucceeds : Bool
  /-- the fallback `page.goto(board_page_url)` succeeds (lines 362, 374). -/
  fallbackNavSucceeds : Bool
deriving DecidableEq

/-- The per-pin transaction (lines 250-352): wait for the detail image,
hash its source URL, consult the sets, locate the More-options and
download controls, trigger the download, apply the size filter, and
commit or discard — returning the outcome classification and the updated
session state.  `hashFn` stands for `get_image_hash` (an MD5 digest
truncated to 12 hex characters, line 58).  Clicking a locator that was
constructed but never visible raises a Playwright timeout, landing in the
`PlaywrightTimeout` handler (lines 346-349). -/
def processPin (hashFn : Str → Str) (env : PinEnv) (s : SessionState) :
    Outcome × SessionState :=
  if env.imgTimeout then
    (.FailedTimeout, { s with failed := s.failed + 1 })
  else
    let img_hash := hashFn env.imgSrc
    if img_hash ∈ s.dl.downloaded_hashes then
      (.SkippedDuplicate, { s with skipped := s.skipped + 1 })
    else if img_hash ∈ s.dl.skipped_hashes then
      (.SkippedTooSmall, { s with skipped_small := s.skipped_small + 1 })
    else
      match scanLocators env.moreStrategies none with
      | none => (.FailedUIElement, { s with failed := s.failed + 1 })
      | some false => (.FailedTimeout, { s with failed := s.failed + 1 })
      | some true =>
        match scanLocators env.downloadStrategies none with
        | none => (.FailedUIElement, { s with failed := s.failed + 1 })
        | some false => (.FailedTimeout, { s with failed := s.failed + 1 })
        | some true =>
          if file_size_kb env.downloadSize < 70 then
            let s2 := discardSteps.foldl (applyStep img_hash env.suggestedName) s
            (.SkippedTooSmall, { s2 with skipped_small := s2.skipped_small + 1 })
          else if env.renameFails then
            let s1 := applyStep img_hash env.suggestedName s .saveTemp
            (.FailedError, { s1 with failed := s1.failed + 1 })
          else
            let s2 := commitSteps.foldl (applyStep img_hash env.suggestedName) s
            (.Downloaded, { s2 with downloaded := s2.downloaded + 1 })

/-- One iteration of the per-pin loop (lines 220-377): re-establish the
board view if it was lost (lines 222-228; a failure there is caught by
the outer handler at line 367, which counts the pin failed and makes one
more navigation attempt, lines 372-377, swallowing its error), then run
the transaction, then return to the board (lines 354-365: `go_back`, and
on failure one `goto` whose own failure is swallowed by `except: pass`). -/
def loopBody (hashFn : Str → Str) (env : PinEnv) (s : SessionState) :
    Outcome × SessionState :=
  if !s.onBoard && !env.topNavSucceeds then
    (.FailedError,
      { s with failed := s.failed + 1, onBoard := env.fallbackNavSucceeds })
  else
    let step := processPin hashFn env { s with onBoard := true }
    if env.goBackSucceeds then (step.1, { step.2 with onBoard := true })
    else (step.1, { step.2 with onBoard := env.fallbackNavSucceeds })

/-- The whole per-pin loop: one `loopBody` per discovered pin, collecting
every iteration's outcome.  No branch of the loop raises past the
iteration's handlers, so the recursion always consumes the entire board. -/
def runSession (hashFn : Str → Str) : List PinEnv → SessionState →
    List Outcome × SessionState
  | [], s => ([], s)
  | env :: rest, s =>
    let step := loopBody hashFn env s
    let next := runSession hashFn rest step.2
    (step.1 :: next.1, next.2)

/-- `max_scrolls = 100` (line 65). -/
def max_scrolls : Nat := 100

/-- The local variables of the scroll loop in `scroll_to_load_all_pins`
(lines 66-68). -/
structure ScrollState where
  scrolls : Nat
  consecutive_no_change : Nat
  last_count : Nat
deriving DecidableEq, Repr

/-- One iteration of the scroll loop body (lines 71-87): read the current
pin count, reset the no-change streak if it moved and extend it
otherwise, scroll, and advance the iteration counter. -/
def scrollStep (current_count : Nat) (st : ScrollState) : ScrollState :=
  { scrolls := st.scrolls + 1,
    consecutive_no_change :=
      if current_count ≠ st.last_count then 0
      else st.consecutive_no_change + 1,
    last_count := current_count }

/-- The scroll loop (line 70): `while scrolls < max_scrolls and
consecutive_no_change < 5`.  `counts i` is the number of rendered pins
the page reports at iteration `i`.  The loop variant is
`max_scrolls - scrolls`, which strictly decreases every iteration. -/
def scrollLoop (counts : Nat → Nat) (st : ScrollState) : ScrollState :=
  if _h : st.scrolls < max_scrolls ∧ st.consecutive_no_change < 5 then
    scrollLoop counts (scrollStep (counts st.scrolls) st)
  else st
termination_by max_scrolls - st.scrolls
decreasing_by simp [scrollStep]; omega

/-- A board whose rendered pin count plateaus at 5 for one iteration and
then grows to 6: iteration 1 surfaces nothing new, yet more content is
still coming. -/
def plateauCounts : Nat → Nat := fun i => if i < 2 then 5 else 6

/-- A locator strategy that constructs and is immediately visible. -/
def visibleStrategy : Strategy := ⟨true, true⟩

/-- A locator strategy whose locator constructs but never becomes
visible. -/
def invisibleStrategy : Strategy := ⟨true, false⟩

/-- A fresh session: empty ledger, no database file, empty output
folder, board view established. -/
def stateEmpty : SessionState := ⟨⟨∅, ∅⟩, .missing, [], 0, 0, 0, 0, true⟩

/-- A warm session that has already downloaded the hashes of `u1` and
`u2` (the embedding hash function in the concrete runs is `id`). -/
def stateWarm : SessionState :=
  ⟨⟨{"u1".data, "u2".data}, ∅⟩, .missing, [], 0, 0, 0, 0, true⟩

/-- A pin that downloads a 100000-byte artifact and commits cleanly. -/
def pinCommit : PinEnv :=
  ⟨false, "u1".data, [visibleStrategy], [visibleStrategy], 100000,
   "a.jpg".data, false, true, true, true⟩

/-- A pin whose artifact is large enough but whose `os.rename` raises
(for example a suggested filename the filesystem rejects). -/
def pinRenameFail : PinEnv :=
  ⟨false, "u1".data, [visibleStrategy], [visibleStrategy], 100000,
   "a.jpg".data, true, true, true, true⟩

/-- A pin for which each of the four download-action selectors
(lines 291-296) builds a valid locator but none ever resolves to a
visible element. -/
def pinNoDownloadButton : PinEnv :=
  ⟨false, "u1".data, [visibleStrategy],
   [invisibleStrategy, invisibleStrategy, invisibleStrategy, invisibleStrategy],
   100000, "a.jpg".data, false, true, true, true⟩

/-- An already-downloaded pin whose `go_back` and fallback `goto` both
fail, leaving the page state unknown at the end of the iteration. -/
def pinNavLost : PinEnv :=
  ⟨false, "u1".data, [visibleStrategy], [visibleStrategy], 100000,
   "a.jpg".data, false, true, false, false⟩

/-- An already-downloaded pin reached after the board view was lost; the
top-of-iteration `goto` succeeds and processing proceeds normally. -/
def pinAfterNavLoss : PinEnv :=
  ⟨false, "u2".data, [visibleStrategy], [visibleStrategy], 100000,
   "b.jpg".data, false, true, true, true⟩

/-- The reconciliation fold only ever adds hashes to the accumulator. -/
theorem mem_reconcile_of_mem (listing : List Str) (acc : Finset Str) (h : Str)
    (hmem : h ∈ acc) :
    h ∈ listing.foldl
        (fun acc filename =>
          if isImageFile filename then insert (hash_part filename) acc else acc)
        acc := by
  induction listing generalizing acc with
  | nil => exact hmem
  | cons f fs ih =>
    simp only [List.foldl_cons]
    apply ih
    by_cases hf : isImageFile f
    · simp [hf, hmem]
    · simpa [hf] using hmem

/-- C1.  Persistence round-trip: after `record(h, Downloaded)` (add `h` to
the downloaded set and re-serialize the ledger to disk) followed by a
reload of the ledger from that disk file (with any output-directory
listing), `lookup h` reports `Downloaded`. -/
theorem persistence_roundtrip (dl : Downloader) (h : Str) (listing : List Str) :
    lookup
      (load_database (.valid (save_database (record_downloaded dl h))) listing)
      h = some .Downloaded := by
  have hmem :
      h ∈ (load_database (.valid (save_database (record_downloaded dl h)))
        listing).downloaded_hashes := by
    apply mem_reconcile_of_mem
    simp [save_database, record_downloaded]
  simp [lookup, hmem]

/-- `splitChar` never produces an empty list of chunks. -/
theorem splitChar_ne_nil (c : Char) (l : Str) : splitChar c l ≠ [] := by
  induction l with
  | nil => simp [splitChar]
  | cons x xs ih =>
    by_cases hx : x = c
    · simp [splitChar, hx]
    · simp only [splitChar, if_neg hx]
      cases hsp : splitChar c xs with
      | nil => exact absurd hsp ih
      | cons y ys => simp

/-- The first chunk of `splitChar` is the longest separator-free leading
segment. -/
theorem splitChar_headD (c : Char) (l : Str) :
    (splitChar c l).headD [] = l.takeWhile (· != c) := by
  induction l with
  | nil => simp [splitChar]
  | cons x xs ih =>
    by_cases hx : x = c
    · simp [splitChar, hx, List.takeWhile_cons]
    · simp only [splitChar, if_neg hx]
      cases hsp : splitChar c xs with
      | nil => exact absurd hsp (splitChar_ne_nil c xs)
      | cons y ys =>
        rw [hsp] at ih
        simp only [List.headD_cons] at ih
        simp [List.takeWhile_cons, hx, ← ih]

/-- A separator-free prefix survives `takeWhile` over the separator. -/
theorem takeWhile_append_sep (c : Char) (h t : Str) (hfree : c ∉ h) :
    (h ++ c :: t).takeWhile (· != c) = h := by
  induction h with
  | nil => simp [List.takeWhile_cons]
  | cons x xs ih =>
    have hx : x ≠ c := fun hc => hfree (hc ▸ List.mem_cons_self x xs)
    have hxs : c ∉ xs := fun hc => hfree (List.mem_cons_of_mem x hc)
    simp [List.takeWhile_cons, hx, ih hxs]

/-- The hash inferred back from a committed filename
`{img_hash}_{original_name}` is the hash itself, because an MD5 hex
digest contains no underscore. -/
theorem hash_part_final_name (img_hash original_name : Str)
    (hfree : '_' ∉ img_hash) :
    hash_part (final_name img_hash original_name) = img_hash := by
  have hconcat : final_name img_hash original_name =
      img_hash ++ '_' :: original_name := by
    simp [final_name]
  have hcontains : (final_name img_hash original_name).contains '_' = true := by
    rw [hconcat]
    simp [List.contains_eq_any_beq]
  rw [hash_part, if_pos hcontains, splitChar_headD, hconcat,
    takeWhile_append_sep _ _ _ hfree]

/-- The Python float comparison `file_size / 1024 < 70` agrees with the
integer threshold of 71680 bytes. -/
theorem file_size_kb_lt_iff (file_size : Nat) :
    file_size_kb file_size < 70 ↔ file_size < 71680 := by
  rw [file_size_kb, div_lt_iff₀ (by norm_num : (0 : ℚ) < 1024)]
  norm_num

/-- Branch characterization of the discard path (size below threshold):
the resulting state written out explicitly. -/
theorem processPin_discard_eq (hashFn : Str → Str) (env : PinEnv)
    (s : SessionState)
    (himg : env.imgTimeout = false)
    (hfresh1 : hashFn env.imgSrc ∉ s.dl.downloaded_hashes)
    (hfresh2 : hashFn env.imgSrc ∉ s.dl.skipped_hashes)
    (hmore : scanLocators env.moreStrategies none = some true)
    (hdown : scanLocators env.downloadStrategies none = some true)
    (hkb : file_size_kb env.downloadSize < 70) :
    processPin hashFn env s =
      (.SkippedTooSmall,
       { s with
         dir := (s.dir ++ [temp_name (hashFn env.imgSrc)]).erase
                  (temp_name (hashFn env.imgSrc)),
         dl := { s.dl with
                 skipped_hashes := insert (hashFn env.imgSrc) s.dl.skipped_hashes },
         disk := .valid (save_database
           { s.dl with
             skipped_hashes := insert (hashFn env.imgSrc) s.dl.skipped_hashes }),
         skipped_small := s.skipped_small + 1 }) := by
  simp [processPin, himg, hfresh1, hfresh2, hmore, hdown, hkb,
    discardSteps, applyStep]

/-- Branch characterization of the commit path (size at or above
threshold, rename succeeds): the resulting state written out
explicitly. -/
theorem processPin_commit_eq (hashFn : Str → Str) (env : PinEnv)
    (s : SessionState)
    (himg : env.imgTimeout = false)
    (hfresh1 : hashFn env.imgSrc ∉ s.dl.downloaded_hashes)
    (hfresh2 : hashFn env.imgSrc ∉ s.dl.skipped_hashes)
    (hmore : scanLocators env.moreStrategies none = some true)
    (hdown : scanLocators env.downloadStrategies none = some true)
    (hkb : ¬ file_size_kb env.downloadSize < 70)
    (hren : env.renameFails = false) :
    processPin hashFn env s =
      (.Downloaded,
       { s with
         dir := (s.dir ++ [temp_name (hashFn env.imgSrc)]).erase
                  (temp_name (hashFn env.imgSrc))
                ++ [final_name (hashFn env.imgSrc) env.suggestedName],
         dl := { s.dl with
                 downloaded_hashes :=
                   insert (hashFn env.imgSrc) s.dl.downloaded_hashes },
         disk := .valid (save_database
           { s.dl with
             downloaded_hashes :=
               insert (hashFn env.imgSrc) s.dl.downloaded_hashes }),
         downloaded := s.downloaded + 1 }) := by
  simp [processPin, himg, hfresh1, hfresh2, hmore, hdown, hkb, hren,
    commitSteps, applyStep]

/-- C2.  Idempotence of a warm re-run: over a board whose every pin's
image appears, whose hash is already in the downloaded set, and whose
return-to-board step succeeds, the session records zero new `Downloaded`
entries — every pin resolves to `SkippedDuplicate`, only the duplicate
counter moves, and the ledger, database file and output directory are
untouched. -/
theorem warm_rerun_idempotent (hashFn : Str → Str) (board : List PinEnv)
    (s0 : SessionState) (hOn : s0.onBoard = true)
    (hw : ∀ env ∈ board, env.imgTimeout = false ∧
      hashFn env.imgSrc ∈ s0.dl.downloaded_hashes ∧ env.goBackSucceeds = true) :
    runSession hashFn board s0 =
      (List.replicate board.length Outcome.SkippedDuplicate,
       { s0 with skipped := s0.skipped + board.length }) := by
  induction board generalizing s0 with
  | nil =>
    obtain ⟨dl, disk, dir, d, sk, ss, f, ob⟩ := s0
    simp [runSession]
  | cons env rest ih =>
    obtain ⟨henv, hmem, hgb⟩ := hw env (by simp)
    obtain ⟨dl, disk, dir, d, sk, ss, f, ob⟩ := s0
    simp only at hOn hmem
    subst hOn
    have hstep :
        runSession hashFn (env :: rest) ⟨dl, disk, dir, d, sk, ss, f, true⟩ =
          (Outcome.SkippedDuplicate ::
            (runSession hashFn rest ⟨dl, disk, dir, d, sk + 1, ss, f, true⟩).1,
           (runSession hashFn rest ⟨dl, disk, dir, d, sk + 1, ss, f, true⟩).2) := by
      simp [runSession, loopBody, processPin, henv, hmem, hgb]
    rw [hstep, ih ⟨dl, disk, dir, d, sk + 1, ss, f, true⟩ rfl]
    · simp [List.replicate_succ, Nat.add_assoc, Nat.add_comm 1]
    · intro e he
      exact hw e (by simp [he])

/-- Closed instance of `warm_rerun_idempotent`: a one-pin warm board
resolves to a single `SkippedDuplicate` and only the duplicate counter
changes. -/
theorem warm_rerun_idempotent_witness :
    runSession id [pinCommit] stateWarm =
      ([Outcome.SkippedDuplicate],
       ⟨⟨{"u1".data, "u2".data}, ∅⟩, .missing, [], 0, 1, 0, 0, true⟩) :=
  warm_rerun_idempotent id [pinCommit] stateWarm rfl (by decide)

/-- C3.  Size filter: a fresh pin whose download succeeds is judged
against the 71680-byte (70 KB) threshold.  Below it, the transaction
yields `SkippedTooSmall`, the hash enters the skipped set in memory and
in the persisted database, and the output directory comes back to its
initial listing — in particular no file whose inferred hash is this pin's
hash remains.  At or above it, the transaction yields `Downloaded` and
the directory holds exactly one file with that hash prefix, the committed
`{img_hash}_{original_name}`. -/
theorem size_filter (hashFn : Str → Str) (env : PinEnv) (s : SessionState)
    (himg : env.imgTimeout = false)
    (hfresh1 : hashFn env.imgSrc ∉ s.dl.downloaded_hashes)
    (hfresh2 : hashFn env.imgSrc ∉ s.dl.skipped_hashes)
    (hmore : scanLocators env.moreStrategies none = some true)
    (hdown : scanLocators env.downloadStrategies none = some true)
    (hren : env.renameFails = false)
    (hhash : '_' ∉ hashFn env.imgSrc)
    (htemp : temp_name (hashFn env.imgSrc) ∉ s.dir)
    (hclean : ∀ f ∈ s.dir, hash_part f ≠ hashFn env.imgSrc) :
    (env.downloadSize < 71680 →
      (processPin hashFn env s).1 = .SkippedTooSmall ∧
      hashFn env.imgSrc ∈ (processPin hashFn env s).2.dl.skipped_hashes ∧
      hashFn env.imgSrc ∈ dbSkipped (processPin hashFn env s).2.disk ∧
      (processPin hashFn env s).2.dir = s.dir ∧
      ∀ f ∈ (processPin hashFn env s).2.dir, hash_part f ≠ hashFn env.imgSrc) ∧
    (71680 ≤ env.downloadSize →
      (processPin hashFn env s).1 = .Downloaded ∧
      final_name (hashFn env.imgSrc) env.suggestedName ∈
        (processPin hashFn env s).2.dir ∧
      (processPin hashFn env s).2.dir.countP
        (fun f => hash_part f == hashFn env.imgSrc) = 1) := by
  have herase : (s.dir ++ [temp_name (hashFn env.imgSrc)]).erase
      (temp_name (hashFn env.imgSrc)) = s.dir := by
    rw [List.erase_append_right _ htemp, List.erase_cons_head]
    simp
  constructor
  · intro hsize
    have hkb : file_size_kb env.downloadSize < 70 :=
      (file_size_kb_lt_iff env.downloadSize).mpr hsize
    rw [processPin_discard_eq hashFn env s himg hfresh1 hfresh2 hmore hdown hkb]
    refine ⟨rfl, by simp, ?_, herase, ?_⟩
    · simp [dbSkipped, save_database, Finset.sort_toFinset]
    · simpa [herase] using hclean
  · intro hsize
    have hkb : ¬ file_size_kb env.downloadSize < 70 := by
      rw [file_size_kb_lt_iff]
      omega
    rw [processPin_commit_eq hashFn env s himg hfresh1 hfresh2 hmore hdown hkb hren]
    refine ⟨rfl, by simp [herase], ?_⟩
    rw [herase, List.countP_append]
    have hzero : s.dir.countP
        (fun f => hash_part f == hashFn env.imgSrc) = 0 := by
      rw [List.countP_eq_zero]
      intro f hf
      simpa using hclean f hf
    have hone : List.countP
        (fun f => hash_part f == hashFn env.imgSrc)
        [final_name (hashFn env.imgSrc) env.suggestedName] = 1 := by
      simp [List.countP_cons, hash_part_final_name _ _ hhash]
    omega

/-- Closed instance of `size_filter`: a 100000-byte artifact for a fresh
hash commits as `{hash}_{name}` and is the only file with that hash
prefix; the hypotheses are discharged at this concrete input. -/
theorem size_filter_witness :
    71680 ≤ 100000 ∧
    ((processPin id pinCommit stateEmpty).1 = .Downloaded ∧
      final_name "u1".data "a.jpg".data ∈
        (processPin id pinCommit stateEmpty).2.dir ∧
      (processPin id pinCommit stateEmpty).2.dir.countP
        (fun f => hash_part f == "u1".data) = 1) :=
  ⟨by norm_num,
   (size_filter id pinCommit stateEmpty rfl (by decide) (by decide)
      (by decide) (by decide) rfl (by decide) (by decide) (by decide)).2
     (by decide)⟩

/-- C6.  Filesystem reconciliation: with the database file missing (or
present but unparseable, which covers an empty file), an output
directory holding `abc123_x.jpg` makes `load_database` report hash
`abc123` as downloaded — the hash is the filename chunk before the first
underscore. -/
theorem reconciliation_reports_downloaded :
    lookup (load_database .missing ["abc123_x.jpg".data]) "abc123".data =
        some .Downloaded ∧
      lookup (load_database .corrupt ["abc123_x.jpg".data]) "abc123".data =
        some .Downloaded := by
  constructor <;> rfl

/-- C4.  A failure between the download and the commit orphans the
temporary artifact: when `os.rename` raises after `temp_{hash}` was
written (line 335), the generic handler at line 350 counts the pin
failed and moves on, and `temp_{hash}` is still in the output directory
when the transaction concludes. -/
theorem orphaned_temp_on_rename_failure :
    (processPin id pinRenameFail stateEmpty).1 = .FailedError ∧
    temp_name "u1".data ∈ (processPin id pinRenameFail stateEmpty).2.dir ∧
    (processPin id pinRenameFail stateEmpty).2.failed = 1 := by
  have hkb : ¬ file_size_kb (100000 : Nat) < 70 := by
    rw [file_size_kb_lt_iff]
    omega
  simp [processPin, pinRenameFail, stateEmpty, scanLocators, visibleStrategy,
    hkb, applyStep]

/-- C7.  When every download-action selector builds a locator but none is
visible, the `if not download_button` test at line 307 sees a truthy
locator object, so the `couldn't find Download button` branch
(`FailedUIElement`) is not taken: the code clicks the invisible locator
and fails through the 30-second download-expectation timeout instead.
The rest of the claimed behaviour does hold: no ledger mutation, no
directory change, the failed counter moves by exactly one, and
enumeration continues. -/
theorem download_locator_exhaustion_timeout :
    scanLocators pinNoDownloadButton.downloadStrategies none = some false ∧
    (processPin id pinNoDownloadButton stateEmpty).1 = .FailedTimeout ∧
    (processPin id pinNoDownloadButton stateEmpty).1 ≠ .FailedUIElement ∧
    (processPin id pinNoDownloadButton stateEmpty).2.dl = stateEmpty.dl ∧
    (processPin id pinNoDownloadButton stateEmpty).2.dir = stateEmpty.dir ∧
    (processPin id pinNoDownloadButton stateEmpty).2.failed =
      stateEmpty.failed + 1 := by
  decide

/-- C5 counterexample.  A run in which the return-to-board step of the
first pin fails outright (`go_back` and the fallback `goto` both fail,
so the board URL cannot be verified) still processes the second pin,
records no failure, surfaces no error, and classifies nothing as
`FailedNavigation` — refuting the claim that such a failure aborts the
crawl. -/
theorem navigation_failure_not_fatal :
    (runSession id [pinNavLost, pinAfterNavLoss] stateWarm).1 =
      [Outcome.SkippedDuplicate, Outcome.SkippedDuplicate] ∧
    (runSession id [pinNavLost, pinAfterNavLoss] stateWarm).2.failed = 0 ∧
    (runSession id [pinNavLost, pinAfterNavLoss] stateWarm).2.skipped = 2 := by
  decide

/-- C5 amended.  A failed return-to-board step is not session-fatal: the
loop processes every discovered pin whatever the navigation environment
does (one outcome per pin, never an abort), and an iteration whose
`go_back` fails keeps its transaction outcome unchanged — the failure
only leaves the board view unrestored when the fallback `goto` also
fails, to be re-attempted at the top of the next iteration. -/
theorem navigation_failure_recovery (hashFn : Str → Str) (board : List PinEnv)
    (env : PinEnv) (s : SessionState) (hOn : s.onBoard = true)
    (hgb : env.goBackSucceeds = false) :
    (runSession hashFn board s).1.length = board.length ∧
    loopBody hashFn env s =
      ((processPin hashFn env s).1,
       { (processPin hashFn env s).2 with onBoard := env.fallbackNavSucceeds }) := by
  constructor
  · clear hOn hgb
    induction board generalizing s with
    | nil => simp [runSession]
    | cons e rest ih => simp [runSession, ih]
  · obtain ⟨dl, disk, dir, d, sk, ss, f, ob⟩ := s
    simp only at hOn
    subst hOn
    simp [loopBody, hgb]

/-- Closed instance of `navigation_failure_recovery` at a concrete
board, pin and state. -/
theorem navigation_failure_recovery_witness :
    (runSession id [pinNavLost] stateWarm).1.length = 1 ∧
    loopBody id pinNavLost stateWarm =
      ((processPin id pinNavLost stateWarm).1,
       { (processPin id pinNavLost stateWarm).2 with onBoard := false }) := by
  have h := navigation_failure_recovery id [pinNavLost] pinNavLost stateWarm
    rfl rfl
  simpa [pinNavLost] using h

/-- Invariant of the scroll loop: starting within bounds, it finishes
within the iteration cap and only exits with the cap reached or a
no-change streak of five. -/
theorem scrollLoop_exit_bounds (counts : Nat → Nat) (st : ScrollState)
    (hs : st.scrolls ≤ max_scrolls) (hc : st.consecutive_no_change ≤ 5) :
    (scrollLoop counts st).scrolls ≤ max_scrolls ∧
    ((scrollLoop counts st).scrolls = max_scrolls ∨
     (scrollLoop counts st).consecutive_no_change = 5) := by
  induction st using scrollLoop.induct counts with
  | case1 st h ih =>
    rw [scrollLoop, dif_pos h]
    apply ih
    · simp [scrollStep, max_scrolls] at h ⊢
      omega
    · simp [scrollStep]
      split <;> omega
  | case2 st h =>
    rw [scrollLoop, dif_neg h]
    simp [max_scrolls] at h hs ⊢
    omega

/-- C8 amended.  The pin-discovery scroll loop always terminates (the
recursion is well-founded on `max_scrolls - scrolls`): it finishes within
the 100-iteration cap, and it only stops because the cap was reached or
because the rendered pin count was unchanged for 5 consecutive
iterations — so a board that never converges still ends the scan with a
partial result. -/
theorem scroll_loop_terminates (counts : Nat → Nat) :
    (scrollLoop counts ⟨0, 0, 0⟩).scrolls ≤ max_scrolls ∧
    ((scrollLoop counts ⟨0, 0, 0⟩).scrolls = max_scrolls ∨
     (scrollLoop counts ⟨0, 0, 0⟩).consecutive_no_change = 5) :=
  scrollLoop_exit_bounds counts ⟨0, 0, 0⟩ (by simp [max_scrolls]) (by simp)

/-- C8 counterexample.  An iteration that surfaces no newly seen item
does not stop the scan: on a board whose count plateaus at 5 for one
iteration and then grows to 6, iteration 1 surfaces nothing new (the
count is unchanged), yet the loop runs 8 iterations — stopping at the
first no-change iteration would have ended it after 2 — and the final
observed count is the later 6. -/
theorem scroll_no_change_does_not_stop :
    plateauCounts 1 = plateauCounts 0 ∧
    (scrollLoop plateauCounts ⟨0, 0, 0⟩).scrolls = 8 ∧
    (scrollLoop plateauCounts ⟨0, 0, 0⟩).last_count = 6 := by
  have heval : scrollLoop plateauCounts ⟨0, 0, 0⟩ = ⟨8, 5, 6⟩ := by
    simp [scrollLoop.eq_def, scrollStep, plateauCounts, max_scrolls]
  exact ⟨rfl, by rw [heval], by rw [heval]⟩

/-- C9.  File-before-entry ordering.  The commit branch of the
transaction performs exactly the step sequence `commitSteps` (save the
temporary file, rename it to `{img_hash}_{original_name}`, add the hash
to the in-memory downloaded set, re-serialize the database), and after
every prefix of that sequence — that is, at every intermediate point of
the commit — a downloaded entry for the hash (in memory or in the
persisted database) implies the permanent file is already in the output
directory: the rename strictly precedes both entry creations. -/
theorem file_before_entry (hashFn : Str → Str) (env : PinEnv)
    (s : SessionState) (p : List TxStep)
    (himg : env.imgTimeout = false)
    (hfresh1 : hashFn env.imgSrc ∉ s.dl.downloaded_hashes)
    (hfresh2 : hashFn env.imgSrc ∉ s.dl.skipped_hashes)
    (hmore : scanLocators env.moreStrategies none = some true)
    (hdown : scanLocators env.downloadStrategies none = some true)
    (hsize : 71680 ≤ env.downloadSize)
    (hren : env.renameFails = false)
    (hdisk : hashFn env.imgSrc ∉ dbDownloaded s.disk)
    (hp : p <+: commitSteps) :
    (processPin hashFn env s).2 =
      { commitSteps.foldl (applyStep (hashFn env.imgSrc) env.suggestedName) s with
        downloaded :=
          (commitSteps.foldl (applyStep (hashFn env.imgSrc) env.suggestedName)
            s).downloaded + 1 } ∧
    ((hashFn env.imgSrc ∈
        (p.foldl (applyStep (hashFn env.imgSrc) env.suggestedName)
          s).dl.downloaded_hashes ∨
      hashFn env.imgSrc ∈
        dbDownloaded (p.foldl (applyStep (hashFn env.imgSrc) env.suggestedName)
          s).disk) →
      final_name (hashFn env.imgSrc) env.suggestedName ∈
        (p.foldl (applyStep (hashFn env.imgSrc) env.suggestedName) s).dir) := by
  have hkb : ¬ file_size_kb env.downloadSize < 70 := by
    rw [file_size_kb_lt_iff]
    omega
  constructor
  · rw [processPin_commit_eq hashFn env s himg hfresh1 hfresh2 hmore hdown hkb hren]
    simp [commitSteps, applyStep]
  · obtain ⟨t, ht⟩ := hp
    rcases p with _ | ⟨a, p⟩
    · intro hmem
      rcases hmem with hmem | hmem
      · exact absurd hmem hfresh1
      · exact absurd hmem hdisk
    · simp only [commitSteps, List.cons_append, List.cons.injEq] at ht
      obtain ⟨rfl, ht⟩ := ht
      rcases p with _ | ⟨b, p⟩
      · intro hmem
        rcases hmem with hmem | hmem
        · exact absurd (by simpa [applyStep] using hmem) hfresh1
        · exact absurd (by simpa [applyStep] using hmem) hdisk
      · simp only [List.cons_append, List.cons.injEq] at ht
        obtain ⟨rfl, ht⟩ := ht
        rcases p with _ | ⟨c, p⟩
        · intro hmem
          rcases hmem with hmem | hmem
          · exact absurd (by simpa [applyStep] using hmem) hfresh1
          · exact absurd (by simpa [applyStep] using hmem) hdisk
        · simp only [List.cons_append, List.cons.injEq] at ht
          obtain ⟨rfl, ht⟩ := ht
          rcases p with _ | ⟨d, p⟩
          · intro _
            simp [applyStep]
          · simp only [List.cons_append, List.cons.injEq] at ht
            obtain ⟨rfl, ht⟩ := ht
            rcases p with _ | ⟨e, p⟩
            · intro _
              simp [applyStep]
            · simp at ht

/-- Closed instance of `file_before_entry`: right after the
`addDownloaded` step of the concrete commit (the first moment the hash
is recorded anywhere), the permanent file is already in the output
directory. -/
theorem file_before_entry_witness :
    final_name "u1".data "a.jpg".data ∈
      (([TxStep.saveTemp, TxStep.renameTemp, TxStep.addDownloaded]).foldl
        (applyStep "u1".data "a.jpg".data) stateEmpty).dir := by
  have h := file_before_entry id pinCommit stateEmpty
    [TxStep.saveTemp, TxStep.renameTemp, TxStep.addDownloaded]
    rfl (by decide) (by decide) (by decide) (by decide) (by decide) rfl
    (by decide) ⟨[TxStep.saveDB], rfl⟩
  exact h.2 (Or.inl (by decide))

/-- The reconciliation fold is unchanged by dropping the filenames the
extension test rejects. -/
theorem foldl_reconcile_filter (listing : List Str) (acc : Finset Str) :
    listing.foldl
        (fun acc filename =>
          if isImageFile filename then insert (hash_part filename) acc else acc)
        acc =
      (listing.filter (fun filename => isImageFile filename)).foldl
        (fun acc filename =>
          if isImageFile filename then insert (hash_part filename) acc else acc)
        acc := by
  induction listing generalizing acc with
  | nil => rfl
  | cons f fs ih =>
    by_cases hf : isImageFile f
    · simp only [List.foldl_cons, List.filter_cons, hf, if_pos, if_true]
      exact ih _
    · simp only [List.foldl_cons, List.filter_cons, hf, if_false,
        Bool.false_eq_true]
      exact ih acc

/-- Every accepted extension starts with a dot. -/
theorem imageExtensions_head (e : Str) (he : e ∈ imageExtensions) :
    e.head? = some '.' := by
  fin_cases he <;> rfl

/-- A filename containing no dot is rejected by the extension test. -/
theorem isImageFile_false_of_no_dot (filename : Str) (hdot : '.' ∉ filename) :
    isImageFile filename = false := by
  rw [isImageFile, List.any_eq_false]
  intro e he hsuf
  simp only [List.isSuffixOf_iff_suffix] at hsuf
  have hdot_e : '.' ∈ e := by
    have hh := imageExtensions_head e he
    cases e with
    | nil => simp at hh
    | cons x xs =>
      simp only [List.head?_cons, Option.some.injEq] at hh
      simp [hh]
  exact hdot (hsuf.mem hdot_e)

/-- `temp_{hash}` filenames carry no accepted extension (an MD5 hex
digest contains no dot). -/
theorem temp_name_not_image (img_hash : Str) (hdot : '.' ∉ img_hash) :
    isImageFile (temp_name img_hash) = false := by
  apply isImageFile_false_of_no_dot
  intro hmem
  rcases List.mem_append.mp hmem with hmem | hmem
  · exact absurd hmem (by decide)
  · exact hdot hmem

/-- A dot-initial extension cannot be a suffix of `{hash}_{name}` when
the hash has no dot and the extension is not a suffix of the name. -/
theorem ext_not_suffix_sep (e h name : Str) (hh : '.' ∉ h)
    (hhead : e.head? = some '.') (hn : ¬ e <:+ name) :
    ¬ e <:+ (h ++ '_' :: name) := by
  intro hsuf
  rcases Nat.lt_or_ge name.length e.length with hlen | hlen
  · have hsn : ('_' :: name) <:+ (h ++ '_' :: name) :=
      List.suffix_append h ('_' :: name)
    have h1 : ('_' :: name) <:+ e :=
      List.suffix_of_suffix_length_le hsn hsuf (by simp; omega)
    rcases Nat.eq_or_lt_of_le (Nat.succ_le_of_lt hlen) with heq | hlt
    · have h2 : ('_' :: name) = e := h1.eq_of_length (by simpa using heq)
      rw [← h2] at hhead
      simp at hhead
    · obtain ⟨d, hd⟩ := h1
      have hdne : d ≠ [] := by
        intro h0
        subst h0
        rw [List.nil_append] at hd
        rw [← hd] at hlt
        simp at hlt
      obtain ⟨p, hp⟩ := hsuf
      rw [← hd, ← List.append_assoc] at hp
      have hhd : p ++ d = h := List.append_cancel_right hp
      cases d with
      | nil => exact hdne rfl
      | cons x d2 =>
        have hx : x = '.' := by
          rw [← hd] at hhead
          simp only [List.cons_append, List.head?_cons, Option.some.injEq] at hhead
          exact hhead
        apply hh
        rw [← hhd]
        subst hx
        exact List.mem_append.mpr (Or.inr (List.mem_cons_self _ _))
  · have hsn : name <:+ (h ++ '_' :: name) :=
      (List.suffix_cons '_' name).trans (List.suffix_append h ('_' :: name))
    exact hn (List.suffix_of_suffix_length_le hsuf hsn hlen)

/-- A committed `{hash}_{name}` whose suggested `name` carries none of
the accepted extensions is itself rejected by the extension test. -/
theorem final_name_not_image (img_hash original_name : Str)
    (hdot : '.' ∉ img_hash)
    (hname : ∀ e ∈ imageExtensions, ¬ e <:+ original_name) :
    isImageFile (final_name img_hash original_name) = false := by
  rw [isImageFile, List.any_eq_false]
  intro e he hsuf
  simp only [List.isSuffixOf_iff_suffix] at hsuf
  have hfn : final_name img_hash original_name =
      img_hash ++ '_' :: original_name := by
    simp [final_name]
  rw [hfn] at hsuf
  exact ext_not_suffix_sep e img_hash original_name hdot
    (imageExtensions_head e he) (hname e he) hsuf

/-- C10.  The reconciliation scan of `load_database` considers only
filenames ending in `.jpg`, `.jpeg`, `.png`, `.gif` or `.webp` (dropping
all others changes nothing); a `temp_{hash}` artifact has no such
extension and is therefore never reconciled; a committed
`{hash}_{name}` whose suggested name carries no such extension is not
recognized either; and the hash inferred from a filename is its prefix
before the first underscore, or before the first dot when it has no
underscore. -/
theorem reconciliation_extension_rules (db : DBFile) (listing : List Str)
    (img_hash original_name filename : Str)
    (hdot : '.' ∉ img_hash)
    (hname : ∀ e ∈ imageExtensions, ¬ e <:+ original_name) :
    load_database db listing =
      load_database db (listing.filter (fun f => isImageFile f)) ∧
    isImageFile (temp_name img_hash) = false ∧
    isImageFile (final_name img_hash original_name) = false ∧
    hash_part filename =
      (if filename.contains '_' then filename.takeWhile (· != '_')
       else filename.takeWhile (· != '.')) := by
  refine ⟨?_, temp_name_not_image img_hash hdot,
    final_name_not_image img_hash original_name hdot hname, ?_⟩
  · cases db <;>
      · simp only [load_database]
        rw [foldl_reconcile_filter]
  · rw [hash_part]
    split <;> rw [splitChar_headD]

/-- Closed instance of `reconciliation_extension_rules` at a concrete
database file, directory listing, hash, suggested name and filename. -/
theorem reconciliation_extension_rules_witness :
    load_database .missing ["abc123_x.jpg".data, "temp_abc123".data] =
      load_database .missing
        (["abc123_x.jpg".data, "temp_abc123".data].filter
          (fun f => isImageFile f)) ∧
    isImageFile (temp_name "abc123".data) = false ∧
    isImageFile (final_name "abc123".data "x.txt".data) = false ∧
    hash_part "abc123_x.jpg".data =
      (if "abc123_x.jpg".data.contains '_' then
        "abc123_x.jpg".data.takeWhile (· != '_')
       else "abc123_x.jpg".data.takeWhile (· != '.')) :=
  reconciliation_extension_rules .missing
    ["abc123_x.jpg".data, "temp_abc123".data] "abc123".data "x.txt".data
    "abc123_x.jpg".data (by decide) (by decide)

end Pinterest
